import Mathlib

/-!
Shallow embedding of the smtp_receiver program (src/main.go): the filename
template resolver (Go regexp `ReplaceAllString` with patterns of the shape
`(^|[^%](%%)*)%X` and the final `%%` collapse), the startup token scan, the
header-boundary scan feeding the `%h` digest, SHA-256, the per-transaction
handler `mailProcessing`, and the shutdown coordination flow from `main`.
-/

namespace SmtpReceiver

/-- Characters of a string literal. -/
def cs (s : String) : List Char := s.toList

/-- Bytes of an ASCII string literal (Go `[]byte(s)`). -/
def bs (s : String) : List Nat := s.toList.map Char.toNat

/-! ## Percent-run helper and the token-replacement scanner

Go's `ReplaceAllString` with pattern `(^|[^%](%%)*)%c` finds successive
leftmost non-overlapping matches and replaces each by `"${1}" ++ val`.
`^` matches only at absolute position 0.  A match at a position `i > 0`
needs a non-`%` character, then a greedy even run of `%` pairs, then `%c`;
this is equivalent to: a non-`%` character followed by an odd maximal run
of `%` characters whose successor is `c`. -/

/-- One full `ReplaceAllString` pass for the pattern `(^|[^%](%%)*)%c` with
replacement `${1} ++ val`, as a single left-to-right scan.  `pending` is the
length of the current not-yet-emitted run of `%` characters; `anchor` is `2`
while that run begins at the absolute start of the string (where only `^%c`
can match), `1` when the run is immediately preceded by an already-emitted
non-`%` character (the `[^%]` of the pattern), and `0` when the run begins
directly after the end of the previous match (where no new match can start
before the next non-`%` character, since matches never overlap). -/
def rTok (c : Char) (val : List Char) : Nat → Nat → List Char → List Char
  | pending, _, [] => List.replicate pending '%'
  | pending, anchor, y :: ys =>
    if y = '%' then
      rTok c val (pending + 1) anchor ys
    else if y = c ∧ pending % 2 = 1 ∧ (anchor = 1 ∨ (anchor = 2 ∧ pending = 1)) then
      List.replicate (pending - 1) '%' ++ val ++ rTok c val 0 0 ys
    else
      List.replicate pending '%' ++ y :: rTok c val 0 1 ys

/-- `timestampRegex.ReplaceAllString(s, "${1}" + val)` and its three siblings. -/
def replaceTok (c : Char) (val : List Char) (l : List Char) : List Char :=
  rTok c val 0 2 l

/-- `percentRegex.ReplaceAllString(s, "%")`: collapse each leftmost
non-overlapping `%%` to `%`. -/
def percentUnescape : List Char → List Char
  | [] => []
  | [x] => [x]
  | x :: y :: xs =>
    if x = '%' ∧ y = '%' then '%' :: percentUnescape xs
    else x :: percentUnescape (y :: xs)

/-! ## Startup token scan (`main`, file-format pre-processing)

```
for i := 0; i < len(fileFormat); {
    j := strings.Index(fileFormat[i:], "%")
    if j == -1 || j+1 == len(fileFormat) { break }
    j += i
    switch fileFormat[j+1] { case 'h': ... case 'H': ... case 's': ... case 'N': ... }
    i = j + 2
}
``` -/

structure Flags where
  needTimestamp : Nat
  needDataHash : Bool
  needFullDataHash : Bool
deriving DecidableEq

def addFlag (c : Char) (f : Flags) : Flags :=
  if c = 'h' then { f with needDataHash := true }
  else if c = 'H' then { f with needFullDataHash := true }
  else if c = 's' then { f with needTimestamp := f.needTimestamp ||| 2 }
  else if c = 'N' then { f with needTimestamp := f.needTimestamp ||| 1 }
  else f

def scanTokens : List Char → Flags
  | '%' :: c :: rest => addFlag c (scanTokens rest)
  | _ :: rest => scanTokens rest
  | [] => ⟨0, false, false⟩

/-! ## Decimal and hexadecimal formatting -/

def digitChar (n : Nat) : Char := (cs "0123456789").getD n '0' 

/-- Decimal digits of `n`, most significant first; `fuel` bounds the digit
count (any `fuel > n` is enough). -/
def natDecAux : Nat → Nat → List Char
  | 0, _ => []
  | fuel + 1, n =>
    if n < 10 then [digitChar n]
    else natDecAux fuel (n / 10) ++ [digitChar (n % 10)]

def natDec (n : Nat) : List Char := natDecAux (n + 1) n

/-- Go `fmt.Sprintf("%d", i)` for an `int64`. -/
def intDec (i : Int) : List Char :=
  if i < 0 then '-' :: natDec i.natAbs else natDec i.toNat

/-- Go `fmt.Sprintf("%0.9d", n)`: zero-pad to 9 digits. -/
def pad9 (n : Nat) : List Char :=
  List.replicate (9 - (natDec n).length) '0' ++ natDec n

/-- `hextable[n]` from `encoding/hex`. -/
def hexDigit (n : Nat) : Char := (cs "0123456789abcdef").getD n '0' 

/-- Go `hex.EncodeToString`: two lowercase hex digits per byte. -/
def hexEncode (l : List Nat) : List Char :=
  (l.map (fun b => [hexDigit (b / 16), hexDigit (b % 16)])).join

/-! ## SHA-256 (`crypto/sha256.Sum256`) -/

def w32 (n : Nat) : Nat := n % 4294967296

def rotr32 (x n : Nat) : Nat := w32 ((x >>> n) ||| (x <<< (32 - n)))

def bsig0 (x : Nat) : Nat := (rotr32 x 2) ^^^ (rotr32 x 13) ^^^ (rotr32 x 22)
def bsig1 (x : Nat) : Nat := (rotr32 x 6) ^^^ (rotr32 x 11) ^^^ (rotr32 x 25)
def ssig0 (x : Nat) : Nat := (rotr32 x 7) ^^^ (rotr32 x 18) ^^^ (x >>> 3)
def ssig1 (x : Nat) : Nat := (rotr32 x 17) ^^^ (rotr32 x 19) ^^^ (x >>> 10)

def sha256K : List Nat :=
  [1116352408, 1899447441, 3049323471, 3921009573, 961987163,
   1508970993, 2453635748, 2870763221, 3624381080, 310598401,
   607225278, 1426881987, 1925078388, 2162078206, 2614888103,
   3248222580, 3835390401, 4022224774, 264347078, 604807628,
   770255983, 1249150122, 1555081692, 1996064986, 2554220882,
   2821834349, 2952996808, 3210313671, 3336571891, 3584528711,
   113926993, 338241895, 666307205, 773529912, 1294757372,
   1396182291, 1695183700, 1986661051, 2177026350, 2456956037,
   2730485921, 2820302411, 3259730800, 3345764771, 3516065817,
   3600352804, 4094571909, 275423344, 430227734, 506948616,
   659060556, 883997877, 958139571, 1322822218, 1537002063,
   1747873779, 1955562222, 2024104815, 2227730452, 2361852424,
   2428436474, 2756734187, 3204031479, 3329325298]

def be32 (a b c d : Nat) : Nat := ((a * 256 + b) * 256 + c) * 256 + d

/-- 16 big-endian 32-bit words from a 64-byte block. -/
def blockWords : List Nat → List Nat
  | a :: b :: c :: d :: rest => be32 a b c d :: blockWords rest
  | _ => []

/-- Extend the message schedule by `k` further words. -/
def scheduleGo (ws : List Nat) : Nat → List Nat
  | 0 => ws
  | k + 1 =>
    let i := ws.length
    let w := w32 (ssig1 (ws.getD (i - 2) 0) + ws.getD (i - 7) 0 +
      ssig0 (ws.getD (i - 15) 0) + ws.getD (i - 16) 0)
    scheduleGo (ws ++ [w]) k

def msgSchedule (block : List Nat) : List Nat := scheduleGo (blockWords block) 48

structure Hash8 where
  a : Nat
  b : Nat
  c : Nat
  d : Nat
  e : Nat
  f : Nat
  g : Nat
  h : Nat
deriving DecidableEq

def compressStep (st : Hash8) (k w : Nat) : Hash8 :=
  let ch := (st.e &&& st.f) ^^^ ((st.e ^^^ 4294967295) &&& st.g)
  let t1 := w32 (st.h + bsig1 st.e + ch + k + w)
  let maj := (st.a &&& st.b) ^^^ (st.a &&& st.c) ^^^ (st.b &&& st.c)
  let t2 := w32 (bsig0 st.a + maj)
  ⟨w32 (t1 + t2), st.a, st.b, st.c, w32 (st.d + t1), st.e, st.f, st.g⟩

def compressBlock (st : Hash8) (block : List Nat) : Hash8 :=
  let ws := msgSchedule block
  let r := (List.zip sha256K ws).foldl (fun s p => compressStep s p.1 p.2) st
  ⟨w32 (st.a + r.a), w32 (st.b + r.b), w32 (st.c + r.c), w32 (st.d + r.d),
   w32 (st.e + r.e), w32 (st.f + r.f), w32 (st.g + r.g), w32 (st.h + r.h)⟩

def chunk64Aux : Nat → List Nat → List (List Nat)
  | 0, _ => []
  | fuel + 1, l =>
    match l with
    | [] => []
    | x :: xs => ((x :: xs).take 64) :: chunk64Aux fuel ((x :: xs).drop 64)

def chunk64 (l : List Nat) : List (List Nat) := chunk64Aux l.length l

def be64 (n : Nat) : List Nat :=
  [(n >>> 56) % 256, (n >>> 48) % 256, (n >>> 40) % 256, (n >>> 32) % 256,
   (n >>> 24) % 256, (n >>> 16) % 256, (n >>> 8) % 256, n % 256]

def sha256Pad (msg : List Nat) : List Nat :=
  let L := msg.length
  let k := (120 - (L + 1) % 64) % 64
  msg ++ 128 :: (List.replicate k 0 ++ be64 (8 * L))

def sha256H0 : Hash8 :=
  ⟨1779033703, 3144134277, 1013904242, 2773480762,
   1359893119, 2600822924, 528734635, 1541459225⟩

def wordBytes (w : Nat) : List Nat :=
  [(w >>> 24) % 256, (w >>> 16) % 256, (w >>> 8) % 256, w % 256]

/-- `sha256.Sum256` as a list of 32 bytes. -/
def sha256 (msg : List Nat) : List Nat :=
  let r := (chunk64 (sha256Pad msg)).foldl compressBlock sha256H0
  wordBytes r.a ++ wordBytes r.b ++ wordBytes r.c ++ wordBytes r.d ++
  wordBytes r.e ++ wordBytes r.f ++ wordBytes r.g ++ wordBytes r.h

/-! ## Header-boundary scan for the `%h` digest (`mailProcessing`)

```
var payloadstart int
for i := 0; i < 3; i++ {
    payloadstart += bytes.Index(data[payloadstart:], []byte{'\n'})
    payloadstart++
}
checksum := sha256.Sum256(data[payloadstart:])
```
`bytes.Index` returns the byte offset of the first line feed, or `-1`.
The index is modelled as a Go `int` (`Int` here) so that the in-bounds
safety claim is about the value actually used to slice. -/

/-- `bytes.Index(l, []byte{'\n'})`. -/
def firstNL : List Nat → Option Nat
  | [] => none
  | b :: r => if b = 10 then some 0 else (firstNL r).map (· + 1)

/-- One loop iteration: `payloadstart += bytes.Index(data[payloadstart:], "\n"); payloadstart++`. -/
def stepNL (d : List Nat) (p : Int) : Int :=
  p + (match firstNL (d.drop p.toNat) with
       | some k => (k : Int)
       | none => -1) + 1

def payloadStart1 (d : List Nat) : Int := stepNL d 0
def payloadStart2 (d : List Nat) : Int := stepNL d (payloadStart1 d)
def payloadStart3 (d : List Nat) : Int := stepNL d (payloadStart2 d)

/-- `data[payloadstart:]`, the input of the `%h` digest. -/
def hashBodyInput (d : List Nat) : List Nat := d.drop (payloadStart3 d).toNat

/-! ## The transaction handler `mailProcessing` -/

structure GoTime where
  unix : Int
  nanosecond : Nat
deriving DecidableEq

structure Config where
  fileFormat : List Char
  logQuiet : Bool
  logFull : Bool
  debug : Bool
  dataEnd : List Char
deriving DecidableEq

/-- Observable actions of one `mailProcessing` call, in program order:
`time.Now()`, the two `sha256.Sum256` call sites, `log.Print` of the
transaction summary line, `os.WriteFile`, and `log.Print(ferr)` on a
failed write. -/
inductive Event where
  | clockRead (t : GoTime)
  | hashBody (input : List Nat)
  | hashFull (input : List Nat)
  | logPrint (line : List Char)
  | writeFile (path : List Char) (contents : List Nat)
  | logWriteError (msg : List Char)
deriving DecidableEq

/-- The token-substitution stage of the filename treatment of
`mailProcessing` (lines 169-195): conditional `%N`, `%s`, `%h`, `%H`
substitutions, in that order. -/
def substitutedFilename (format : List Char) (fl : Flags) (data : List Nat)
    (now : GoTime) : List Char :=
  let f1 :=
    if fl.needTimestamp > 0 then
      let fa := if fl.needTimestamp &&& 1 > 0 then
          replaceTok 'N' (pad9 now.nanosecond) format else format
      if fl.needTimestamp &&& 2 > 0 then replaceTok 's' (intDec now.unix) fa else fa
    else format
  let f2 := if fl.needDataHash then
      replaceTok 'h' (hexEncode (sha256 (hashBodyInput data))) f1 else f1
  if fl.needFullDataHash then replaceTok 'H' (hexEncode (sha256 data)) f2 else f2

/-- The filename treatment of `mailProcessing` (lines 169-198): the token
substitutions, then the `%%` collapse when the result is nonempty. -/
def resolvedFilename (format : List Char) (fl : Flags) (data : List Nat) (now : GoTime) :
    List Char :=
  let f3 := substitutedFilename format fl data now
  if f3 ≠ [] then percentUnescape f3 else f3

/-- Go `[]byte` printed with `%s` in a format string. -/
def bytesToChars (l : List Nat) : List Char := l.map Char.ofNat

/-- The transaction summary line: `logFormatHead` formatting, the
` mail data: "<filename>"` suffix when a path was resolved, and the
full-data dump plus `dataEnd` marker under `-full`. -/
def logLine (cfg : Config) (remoteAddr from_ : List Char) (rcptTo : List (List Char))
    (data : List Nat) (filename : List Char) : List Char :=
  let head := cs "remote: " ++ remoteAddr ++ cs ", MAIL From: <" ++ from_ ++
    cs ">, RCPT To: [" ++ List.intercalate (cs " ") rcptTo ++ cs "]"
  let withFile := if filename ≠ [] then
      head ++ cs " mail data: \"" ++ filename ++ cs "\"" else head
  if cfg.logFull then withFile ++ '\n' :: (bytesToChars data ++ cfg.dataEnd) else withFile

/-- One call of the handler `mailProcessing(remoteAddr, from, to, data)`.
`fl` is the flag set precomputed at startup from the template, `now` the
value `time.Now()` would deliver, and `writeErr` the outcome
`os.WriteFile` would report.  Returns the trace of observable events in
program order together with the handler's return value. -/
def mailProcessing (cfg : Config) (fl : Flags) (remoteAddr from_ : List Char)
    (rcptTo : List (List Char)) (data : List Nat) (now : GoTime)
    (writeErr : Option (List Char)) : List Event × Option (List Char) :=
  let tsEvents := if fl.needTimestamp > 0 then [Event.clockRead now] else []
  let hEvents := if fl.needDataHash then [Event.hashBody (hashBodyInput data)] else []
  let hfEvents := if fl.needFullDataHash then [Event.hashFull data] else []
  let filename := resolvedFilename cfg.fileFormat fl data now
  let logEvents := if !cfg.logQuiet || cfg.debug then
      [Event.logPrint (logLine cfg remoteAddr from_ rcptTo data filename)] else []
  let writeEvents := if filename ≠ [] then
      Event.writeFile filename data ::
        (match writeErr with
         | some e => [Event.logWriteError e]
         | none => [])
    else []
  (tsEvents ++ hEvents ++ hfEvents ++ logEvents ++ writeEvents, none)

/-! ## Shutdown coordination (`main`, lines 111-136)

The signal goroutine:
```
<-c
log.Println("Signal received: shutting down.")
err := srv.Close(); if err != nil { log.Println(err) }
isClosed = true
ln.Close()
log.Println("server closed.")
```
and the main flow after `ListenAndServe` returns:
```
if isClosed {
    err = srv.Shutdown(context.TODO()); if err != nil { log.Println(err) }
    log.Println("server shut downed.")
} else if err != nil { log.Println(err) }
``` -/

inductive SAct where
  | logMsg (m : List Char)
  | srvClose
  | setIsClosed
  | lnClose
  | srvShutdown
deriving DecidableEq

/-- Action sequence of the signal goroutine once the interrupt arrives;
`closeErr` is the error `srv.Close()` reports, if any. -/
def signalFlow (closeErr : Option (List Char)) : List SAct :=
  [SAct.logMsg (cs "Signal received: shutting down."), SAct.srvClose] ++
  (match closeErr with
   | some e => [SAct.logMsg e]
   | none => []) ++
  [SAct.setIsClosed, SAct.lnClose, SAct.logMsg (cs "server closed.")]

/-- Action sequence of the main flow after the accept loop returns, given
the shutdown flag, the accept loop's error, and the error `srv.Shutdown`
would report. -/
def mainAfterServe (isClosed : Bool) (serveErr shutdownErr : Option (List Char)) :
    List SAct :=
  if isClosed then
    SAct.srvShutdown ::
      ((match shutdownErr with
        | some e => [SAct.logMsg e]
        | none => []) ++
       [SAct.logMsg (cs "server shut downed.")])
  else
    match serveErr with
    | some e => [SAct.logMsg e]
    | none => []

/-- The shutdown flag after executing a sequence of actions from a given
flag state (`isClosed` has a single writer, the signal flow). -/
def runFlag (acts : List SAct) (b : Bool) : Bool :=
  acts.foldl (fun s a => if a = SAct.setIsClosed then true else s) b

/-! ## Event classifiers -/

def isClockRead : Event → Bool
  | Event.clockRead _ => true
  | _ => false

def isHashBody : Event → Bool
  | Event.hashBody _ => true
  | _ => false

def isHashFull : Event → Bool
  | Event.hashFull _ => true
  | _ => false

def isLogPrint : Event → Bool
  | Event.logPrint _ => true
  | _ => false

/-! ## Helper lemmas about the header-boundary scan -/

theorem firstNL_lt (l : List Nat) (k : Nat) (h : firstNL l = some k) : k < l.length := by
  induction l generalizing k with
  | nil => simp [firstNL] at h
  | cons b r ih =>
    by_cases hb : b = 10
    · simp [firstNL, hb] at h
      simp only [List.length_cons]
      omega
    · simp [firstNL, hb] at h
      obtain ⟨k', hk', rfl⟩ := h
      have := ih _ hk'
      simp only [List.length_cons]
      omega

theorem stepNL_bounds (d : List Nat) (p : Int) (h0 : 0 ≤ p) (h1 : p ≤ d.length) :
    0 ≤ stepNL d p ∧ stepNL d p ≤ d.length := by
  unfold stepNL
  cases hf : firstNL (d.drop p.toNat) with
  | none => simp only [hf]; constructor <;> omega
  | some k =>
    have hk := firstNL_lt _ _ hf
    simp only [List.length_drop] at hk
    simp only [hf]
    constructor <;> omega

end SmtpReceiver

namespace SmtpReceiver

/-! ## Claims -/

/-- **C9**: for every transaction body, the header-boundary scan used for the
`%h` digest keeps its payload-start index within `[0, length of body]` at each
of its three iterations, so every slice `data[payloadstart:]` it takes is in
range and the computation never panics or reads out of bounds. -/
theorem payloadStart_in_bounds (d : List Nat) :
    (0 ≤ payloadStart1 d ∧ payloadStart1 d ≤ d.length) ∧
    (0 ≤ payloadStart2 d ∧ payloadStart2 d ≤ d.length) ∧
    (0 ≤ payloadStart3 d ∧ payloadStart3 d ≤ d.length) := by
  have b1 := stepNL_bounds d 0 (by omega) (by simp)
  have b2 := stepNL_bounds d (payloadStart1 d) b1.1 b1.2
  have b3 := stepNL_bounds d (payloadStart2 d) b2.1 b2.2
  exact ⟨b1, b2, b3⟩


/-! ### Characterization of the `mailProcessing` event trace -/

theorem countP_hashBody_eq (cfg : Config) (fl : Flags) (remoteAddr from_ : List Char)
    (rcptTo : List (List Char)) (data : List Nat) (now : GoTime)
    (writeErr : Option (List Char)) :
    (mailProcessing cfg fl remoteAddr from_ rcptTo data now writeErr).1.countP
      (fun e => isHashBody e) = if fl.needDataHash then 1 else 0 := by
  simp only [mailProcessing, List.countP_append]
  cases writeErr <;>
    by_cases h1 : fl.needTimestamp > 0 <;>
    by_cases h2 : fl.needDataHash = true <;>
    by_cases h3 : fl.needFullDataHash = true <;>
    by_cases h4 : (!cfg.logQuiet || cfg.debug) = true <;>
    by_cases h5 : resolvedFilename cfg.fileFormat fl data now ≠ [] <;>
    simp [h1, h2, h3, h4, h5, isHashBody, List.countP_cons]

theorem countP_hashFull_eq (cfg : Config) (fl : Flags) (remoteAddr from_ : List Char)
    (rcptTo : List (List Char)) (data : List Nat) (now : GoTime)
    (writeErr : Option (List Char)) :
    (mailProcessing cfg fl remoteAddr from_ rcptTo data now writeErr).1.countP
      (fun e => isHashFull e) = if fl.needFullDataHash then 1 else 0 := by
  simp only [mailProcessing, List.countP_append]
  cases writeErr <;>
    by_cases h1 : fl.needTimestamp > 0 <;>
    by_cases h2 : fl.needDataHash = true <;>
    by_cases h3 : fl.needFullDataHash = true <;>
    by_cases h4 : (!cfg.logQuiet || cfg.debug) = true <;>
    by_cases h5 : resolvedFilename cfg.fileFormat fl data now ≠ [] <;>
    simp [h1, h2, h3, h4, h5, isHashFull, List.countP_cons]

theorem countP_clockRead_eq (cfg : Config) (fl : Flags) (remoteAddr from_ : List Char)
    (rcptTo : List (List Char)) (data : List Nat) (now : GoTime)
    (writeErr : Option (List Char)) :
    (mailProcessing cfg fl remoteAddr from_ rcptTo data now writeErr).1.countP
      (fun e => isClockRead e) = if fl.needTimestamp > 0 then 1 else 0 := by
  simp only [mailProcessing, List.countP_append]
  cases writeErr <;>
    by_cases h1 : fl.needTimestamp > 0 <;>
    by_cases h2 : fl.needDataHash = true <;>
    by_cases h3 : fl.needFullDataHash = true <;>
    by_cases h4 : (!cfg.logQuiet || cfg.debug) = true <;>
    by_cases h5 : resolvedFilename cfg.fileFormat fl data now ≠ [] <;>
    simp [h1, h2, h3, h4, h5, isClockRead, List.countP_cons]

theorem clockRead_mem_iff (cfg : Config) (fl : Flags) (remoteAddr from_ : List Char)
    (rcptTo : List (List Char)) (data : List Nat) (now : GoTime)
    (writeErr : Option (List Char)) (t : GoTime) :
    Event.clockRead t ∈ (mailProcessing cfg fl remoteAddr from_ rcptTo data now writeErr).1 ↔
      fl.needTimestamp > 0 ∧ t = now := by
  simp only [mailProcessing, List.mem_append]
  cases writeErr <;>
    by_cases h1 : fl.needTimestamp > 0 <;>
    by_cases h2 : fl.needDataHash = true <;>
    by_cases h3 : fl.needFullDataHash = true <;>
    by_cases h4 : (!cfg.logQuiet || cfg.debug) = true <;>
    by_cases h5 : resolvedFilename cfg.fileFormat fl data now ≠ [] <;>
    simp [h1, h2, h3, h4, h5]

theorem hashBody_mem_iff (cfg : Config) (fl : Flags) (remoteAddr from_ : List Char)
    (rcptTo : List (List Char)) (data : List Nat) (now : GoTime)
    (writeErr : Option (List Char)) (inp : List Nat) :
    Event.hashBody inp ∈ (mailProcessing cfg fl remoteAddr from_ rcptTo data now writeErr).1 ↔
      fl.needDataHash = true ∧ inp = hashBodyInput data := by
  simp only [mailProcessing, List.mem_append]
  cases writeErr <;>
    by_cases h1 : fl.needTimestamp > 0 <;>
    by_cases h2 : fl.needDataHash = true <;>
    by_cases h3 : fl.needFullDataHash = true <;>
    by_cases h4 : (!cfg.logQuiet || cfg.debug) = true <;>
    by_cases h5 : resolvedFilename cfg.fileFormat fl data now ≠ [] <;>
    simp [h1, h2, h3, h4, h5]

theorem hashFull_mem_iff (cfg : Config) (fl : Flags) (remoteAddr from_ : List Char)
    (rcptTo : List (List Char)) (data : List Nat) (now : GoTime)
    (writeErr : Option (List Char)) (inp : List Nat) :
    Event.hashFull inp ∈ (mailProcessing cfg fl remoteAddr from_ rcptTo data now writeErr).1 ↔
      fl.needFullDataHash = true ∧ inp = data := by
  simp only [mailProcessing, List.mem_append]
  cases writeErr <;>
    by_cases h1 : fl.needTimestamp > 0 <;>
    by_cases h2 : fl.needDataHash = true <;>
    by_cases h3 : fl.needFullDataHash = true <;>
    by_cases h4 : (!cfg.logQuiet || cfg.debug) = true <;>
    by_cases h5 : resolvedFilename cfg.fileFormat fl data now ≠ [] <;>
    simp [h1, h2, h3, h4, h5]

theorem logPrint_mem_iff (cfg : Config) (fl : Flags) (remoteAddr from_ : List Char)
    (rcptTo : List (List Char)) (data : List Nat) (now : GoTime)
    (writeErr : Option (List Char)) (line : List Char) :
    Event.logPrint line ∈ (mailProcessing cfg fl remoteAddr from_ rcptTo data now writeErr).1 ↔
      (!cfg.logQuiet || cfg.debug) = true ∧
        line = logLine cfg remoteAddr from_ rcptTo data
          (resolvedFilename cfg.fileFormat fl data now) := by
  simp only [mailProcessing, List.mem_append]
  cases writeErr <;>
    by_cases h1 : fl.needTimestamp > 0 <;>
    by_cases h2 : fl.needDataHash = true <;>
    by_cases h3 : fl.needFullDataHash = true <;>
    by_cases h4 : (!cfg.logQuiet || cfg.debug) = true <;>
    by_cases h5 : resolvedFilename cfg.fileFormat fl data now ≠ [] <;>
    simp [h1, h2, h3, h4, h5]

theorem writeFile_mem_iff (cfg : Config) (fl : Flags) (remoteAddr from_ : List Char)
    (rcptTo : List (List Char)) (data : List Nat) (now : GoTime)
    (writeErr : Option (List Char)) (p : List Char) (d' : List Nat) :
    Event.writeFile p d' ∈ (mailProcessing cfg fl remoteAddr from_ rcptTo data now writeErr).1 ↔
      resolvedFilename cfg.fileFormat fl data now ≠ [] ∧
        p = resolvedFilename cfg.fileFormat fl data now ∧ d' = data := by
  simp only [mailProcessing, List.mem_append]
  cases writeErr <;>
    by_cases h1 : fl.needTimestamp > 0 <;>
    by_cases h2 : fl.needDataHash = true <;>
    by_cases h3 : fl.needFullDataHash = true <;>
    by_cases h4 : (!cfg.logQuiet || cfg.debug) = true <;>
    by_cases h5 : resolvedFilename cfg.fileFormat fl data now ≠ [] <;>
    simp [h1, h2, h3, h4, h5]

theorem logWriteError_mem_iff (cfg : Config) (fl : Flags) (remoteAddr from_ : List Char)
    (rcptTo : List (List Char)) (data : List Nat) (now : GoTime)
    (writeErr : Option (List Char)) (m : List Char) :
    Event.logWriteError m ∈
        (mailProcessing cfg fl remoteAddr from_ rcptTo data now writeErr).1 ↔
      resolvedFilename cfg.fileFormat fl data now ≠ [] ∧ writeErr = some m := by
  simp only [mailProcessing, List.mem_append]
  cases writeErr <;>
    by_cases h1 : fl.needTimestamp > 0 <;>
    by_cases h2 : fl.needDataHash = true <;>
    by_cases h3 : fl.needFullDataHash = true <;>
    by_cases h4 : (!cfg.logQuiet || cfg.debug) = true <;>
    by_cases h5 : resolvedFilename cfg.fileFormat fl data now ≠ [] <;>
    simp [h1, h2, h3, h4, h5, eq_comm]

theorem resolvedFilename_noflags (t : List Char) (data : List Nat) (now : GoTime) :
    resolvedFilename t ⟨0, false, false⟩ data now = percentUnescape t := by
  simp only [resolvedFilename, substitutedFilename]
  norm_num
  intro h
  subst h
  simp [percentUnescape]

/-- **C4**: for every template containing no placeholder tokens (the startup
scan sets no flag), resolution returns the template with every `%%` collapsed
to `%` and no digest is computed; in general each digest kind is computed at
most once per transaction and only when the startup scan flagged its token. -/
theorem digests_lazy_and_at_most_once (cfg : Config) (remoteAddr from_ : List Char)
    (rcptTo : List (List Char)) (data : List Nat) (now : GoTime)
    (writeErr : Option (List Char)) :
    ((mailProcessing cfg (scanTokens cfg.fileFormat) remoteAddr from_ rcptTo data now
        writeErr).1.countP (fun e => isHashBody e) ≤ 1 ∧
     (mailProcessing cfg (scanTokens cfg.fileFormat) remoteAddr from_ rcptTo data now
        writeErr).1.countP (fun e => isHashFull e) ≤ 1) ∧
    ((scanTokens cfg.fileFormat).needDataHash = false →
      (mailProcessing cfg (scanTokens cfg.fileFormat) remoteAddr from_ rcptTo data now
        writeErr).1.countP (fun e => isHashBody e) = 0) ∧
    ((scanTokens cfg.fileFormat).needFullDataHash = false →
      (mailProcessing cfg (scanTokens cfg.fileFormat) remoteAddr from_ rcptTo data now
        writeErr).1.countP (fun e => isHashFull e) = 0) ∧
    (scanTokens cfg.fileFormat = ⟨0, false, false⟩ →
      resolvedFilename cfg.fileFormat (scanTokens cfg.fileFormat) data now =
          percentUnescape cfg.fileFormat ∧
      (mailProcessing cfg (scanTokens cfg.fileFormat) remoteAddr from_ rcptTo data now
        writeErr).1.countP (fun e => isHashBody e) = 0 ∧
      (mailProcessing cfg (scanTokens cfg.fileFormat) remoteAddr from_ rcptTo data now
        writeErr).1.countP (fun e => isHashFull e) = 0) := by
  have hb := countP_hashBody_eq cfg (scanTokens cfg.fileFormat) remoteAddr from_ rcptTo
    data now writeErr
  have hf := countP_hashFull_eq cfg (scanTokens cfg.fileFormat) remoteAddr from_ rcptTo
    data now writeErr
  refine ⟨⟨?_, ?_⟩, ?_, ?_, ?_⟩
  · rw [hb]; split <;> omega
  · rw [hf]; split <;> omega
  · intro h; rw [hb, h]; simp
  · intro h; rw [hf, h]; simp
  · intro h
    refine ⟨by rw [h]; exact resolvedFilename_noflags _ _ _, ?_, ?_⟩
    · rw [hb, h]; simp
    · rw [hf, h]; simp

/-- Closed witness for C4 at a concrete tokenless template. -/
theorem digests_lazy_and_at_most_once_witness :
    resolvedFilename (cs "out%%dir") (scanTokens (cs "out%%dir")) (bs "body") ⟨7, 3⟩ =
        percentUnescape (cs "out%%dir") ∧
      (mailProcessing ⟨cs "out%%dir", false, false, false, []⟩ (scanTokens (cs "out%%dir"))
        (cs "r") (cs "a") [cs "b"] (bs "body") ⟨7, 3⟩ none).1.countP
          (fun e => isHashBody e) = 0 := by
  have h := digests_lazy_and_at_most_once ⟨cs "out%%dir", false, false, false, []⟩
    (cs "r") (cs "a") [cs "b"] (bs "body") ⟨7, 3⟩ none
  have h2 := h.2.2.2 (by decide)
  exact ⟨h2.1, h2.2.1⟩


theorem countP_logPrint_eq (cfg : Config) (fl : Flags) (remoteAddr from_ : List Char)
    (rcptTo : List (List Char)) (data : List Nat) (now : GoTime)
    (writeErr : Option (List Char)) :
    (mailProcessing cfg fl remoteAddr from_ rcptTo data now writeErr).1.countP
      (fun e => isLogPrint e) = if (!cfg.logQuiet || cfg.debug) then 1 else 0 := by
  simp only [mailProcessing, List.countP_append]
  cases writeErr <;>
    by_cases h1 : fl.needTimestamp > 0 <;>
    by_cases h2 : fl.needDataHash = true <;>
    by_cases h3 : fl.needFullDataHash = true <;>
    by_cases h4 : (!cfg.logQuiet || cfg.debug) = true <;>
    by_cases h5 : resolvedFilename cfg.fileFormat fl data now ≠ [] <;>
    simp [h1, h2, h3, h4, h5, isLogPrint, List.countP_cons]

/-- **C6**: when the quiet flag is set and the debug flag is not, no transaction
summary log line is emitted (and with a successful write no log call happens at
all), but the artifact file is still written whenever a non-empty path was
resolved; when the debug flag is set the summary line is emitted even under
quiet. -/
theorem quiet_suppresses_log_not_write (cfg : Config) (fl : Flags)
    (remoteAddr from_ : List Char) (rcptTo : List (List Char)) (data : List Nat)
    (now : GoTime) (writeErr : Option (List Char)) :
    (cfg.logQuiet = true → cfg.debug = false →
      (mailProcessing cfg fl remoteAddr from_ rcptTo data now writeErr).1.countP
          (fun e => isLogPrint e) = 0 ∧
      (writeErr = none → ∀ m, Event.logWriteError m ∉
          (mailProcessing cfg fl remoteAddr from_ rcptTo data now writeErr).1) ∧
      (resolvedFilename cfg.fileFormat fl data now ≠ [] →
        Event.writeFile (resolvedFilename cfg.fileFormat fl data now) data ∈
          (mailProcessing cfg fl remoteAddr from_ rcptTo data now writeErr).1)) ∧
    (cfg.debug = true →
      Event.logPrint (logLine cfg remoteAddr from_ rcptTo data
          (resolvedFilename cfg.fileFormat fl data now)) ∈
        (mailProcessing cfg fl remoteAddr from_ rcptTo data now writeErr).1) := by
  constructor
  · intro hq hd
    refine ⟨?_, ?_, ?_⟩
    · rw [countP_logPrint_eq]
      simp [hq, hd]
    · intro hw m hmem
      rw [logWriteError_mem_iff] at hmem
      rw [hw] at hmem
      exact Option.noConfusion hmem.2
    · intro hne
      rw [writeFile_mem_iff]
      exact ⟨hne, rfl, rfl⟩
  · intro hd
    rw [logPrint_mem_iff]
    simp [hd]

/-- Closed witness for C6: under `-quiet` the summary line vanishes but the
file write still happens; under `-quiet -debug` the summary line is emitted. -/
theorem quiet_suppresses_log_not_write_witness :
    ((mailProcessing ⟨cs "f", true, false, false, []⟩ (scanTokens (cs "f")) (cs "r")
        (cs "a") [cs "b"] (bs "body") ⟨7, 3⟩ none).1.countP (fun e => isLogPrint e) = 0 ∧
     Event.writeFile (resolvedFilename (cs "f") (scanTokens (cs "f")) (bs "body") ⟨7, 3⟩)
        (bs "body") ∈
       (mailProcessing ⟨cs "f", true, false, false, []⟩ (scanTokens (cs "f")) (cs "r")
        (cs "a") [cs "b"] (bs "body") ⟨7, 3⟩ none).1) ∧
    Event.logPrint (logLine ⟨cs "f", true, false, true, []⟩ (cs "r") (cs "a") [cs "b"]
        (bs "body") (resolvedFilename (cs "f") (scanTokens (cs "f")) (bs "body") ⟨7, 3⟩)) ∈
      (mailProcessing ⟨cs "f", true, false, true, []⟩ (scanTokens (cs "f")) (cs "r")
        (cs "a") [cs "b"] (bs "body") ⟨7, 3⟩ none).1 := by
  have h1 := quiet_suppresses_log_not_write ⟨cs "f", true, false, false, []⟩
    (scanTokens (cs "f")) (cs "r") (cs "a") [cs "b"] (bs "body") ⟨7, 3⟩ none
  have h2 := quiet_suppresses_log_not_write ⟨cs "f", true, false, true, []⟩
    (scanTokens (cs "f")) (cs "r") (cs "a") [cs "b"] (bs "body") ⟨7, 3⟩ none
  have ha := h1.1 rfl rfl
  exact ⟨⟨ha.1, ha.2.2 (by decide)⟩, h2.2 rfl⟩

/-- **C7**: the handler returns success (a nil error) to the protocol engine
regardless of whether the artifact write succeeds; a write failure is logged
(the error is printed) and swallowed, never changing the return value. -/
theorem handler_always_accepts (cfg : Config) (fl : Flags)
    (remoteAddr from_ : List Char) (rcptTo : List (List Char)) (data : List Nat)
    (now : GoTime) (writeErr : Option (List Char)) :
    (mailProcessing cfg fl remoteAddr from_ rcptTo data now writeErr).2 = none ∧
    (∀ e, writeErr = some e → resolvedFilename cfg.fileFormat fl data now ≠ [] →
      Event.logWriteError e ∈
        (mailProcessing cfg fl remoteAddr from_ rcptTo data now writeErr).1) := by
  constructor
  · rfl
  · intro e he hne
    rw [logWriteError_mem_iff]
    exact ⟨hne, he⟩

/-- Closed witness for C7 at a failing write. -/
theorem handler_always_accepts_witness :
    (mailProcessing ⟨cs "f", false, false, false, []⟩ (scanTokens (cs "f")) (cs "r")
        (cs "a") [cs "b"] (bs "body") ⟨7, 3⟩ (some (cs "disk full"))).2 = none ∧
    Event.logWriteError (cs "disk full") ∈
      (mailProcessing ⟨cs "f", false, false, false, []⟩ (scanTokens (cs "f")) (cs "r")
        (cs "a") [cs "b"] (bs "body") ⟨7, 3⟩ (some (cs "disk full"))).1 := by
  have h := handler_always_accepts ⟨cs "f", false, false, false, []⟩ (scanTokens (cs "f"))
    (cs "r") (cs "a") [cs "b"] (bs "body") ⟨7, 3⟩ (some (cs "disk full"))
  exact ⟨h.1, h.2 (cs "disk full") rfl (by decide)⟩

/-- **C8**: the signal flow closes the protocol engine, sets the shutdown flag,
then closes the listener, in that order; after the accept loop returns, the
final graceful `Shutdown` call happens if and only if the shutdown flag was
set, and otherwise the accept-loop error is only logged. -/
theorem shutdown_flow_order (closeErr serveErr shutdownErr : Option (List Char))
    (isClosed : Bool) :
    (List.Sublist [SAct.srvClose, SAct.setIsClosed, SAct.lnClose] (signalFlow closeErr) ∧
     (signalFlow closeErr).count SAct.srvClose = 1 ∧
     (signalFlow closeErr).count SAct.setIsClosed = 1 ∧
     (signalFlow closeErr).count SAct.lnClose = 1 ∧
     (signalFlow closeErr).count SAct.srvShutdown = 0 ∧
     runFlag (signalFlow closeErr) false = true) ∧
    ((SAct.srvShutdown ∈ mainAfterServe isClosed serveErr shutdownErr) ↔
      isClosed = true) ∧
    (isClosed = false → ∀ e, serveErr = some e →
      mainAfterServe isClosed serveErr shutdownErr = [SAct.logMsg e]) := by
  refine ⟨?_, ?_, ?_⟩
  · cases closeErr with
    | none =>
      refine ⟨?_, by decide, by decide, by decide, by decide, by decide⟩
      decide
    | some e =>
      refine ⟨?_, ?_, ?_, ?_, ?_, ?_⟩
      · exact .cons _ (.cons₂ _ (.cons _ (.cons₂ _ (.cons₂ _ (List.nil_sublist _)))))
      · simp [signalFlow, List.count_cons, List.count_nil]
      · simp [signalFlow, List.count_cons, List.count_nil]
      · simp [signalFlow, List.count_cons, List.count_nil]
      · simp [signalFlow, List.count_cons, List.count_nil]
      · simp [runFlag, signalFlow]
  · cases isClosed with
    | true =>
      simp only [mainAfterServe, if_pos]
      simp
    | false =>
      simp only [mainAfterServe]
      cases serveErr <;> simp
  · intro hc e he
    subst hc
    subst he
    simp [mainAfterServe]

/-- Closed witness for C8: a non-shutdown accept-loop error is only logged. -/
theorem shutdown_flow_order_witness :
    mainAfterServe false (some (cs "accept tcp: use of closed network connection")) none =
      [SAct.logMsg (cs "accept tcp: use of closed network connection")] :=
  (shutdown_flow_order none (some (cs "accept tcp: use of closed network connection"))
    none false).2.2 rfl _ rfl

/-- **C10**: the clock is read at most once per transaction, and when the
template mentions both `%s` and `%N` the seconds and nanoseconds substituted
into the path come from that single reading. -/
theorem single_clock_read (cfg : Config) (remoteAddr from_ : List Char)
    (rcptTo : List (List Char)) (data : List Nat) (now : GoTime)
    (writeErr : Option (List Char)) :
    ((mailProcessing cfg (scanTokens cfg.fileFormat) remoteAddr from_ rcptTo data now
        writeErr).1.countP (fun e => isClockRead e) ≤ 1) ∧
    ((scanTokens cfg.fileFormat).needTimestamp &&& 1 > 0 →
     (scanTokens cfg.fileFormat).needTimestamp &&& 2 > 0 →
      (mailProcessing cfg (scanTokens cfg.fileFormat) remoteAddr from_ rcptTo data now
        writeErr).1.countP (fun e => isClockRead e) = 1 ∧
      (∀ t, Event.clockRead t ∈
          (mailProcessing cfg (scanTokens cfg.fileFormat) remoteAddr from_ rcptTo data now
            writeErr).1 →
        t = now ∧
        resolvedFilename cfg.fileFormat (scanTokens cfg.fileFormat) data now =
          resolvedFilename cfg.fileFormat (scanTokens cfg.fileFormat) data t)) := by
  have hc := countP_clockRead_eq cfg (scanTokens cfg.fileFormat) remoteAddr from_ rcptTo
    data now writeErr
  constructor
  · rw [hc]; split <;> omega
  · intro h1 _h2
    have hpos : (scanTokens cfg.fileFormat).needTimestamp > 0 := by
      by_contra hz
      have : (scanTokens cfg.fileFormat).needTimestamp = 0 := by omega
      rw [this] at h1
      simp [Nat.zero_and] at h1
    constructor
    · rw [hc]; simp [hpos]
    · intro t hmem
      rw [clockRead_mem_iff] at hmem
      have ht : t = now := hmem.2
      exact ⟨ht, by rw [ht]⟩

/-- Closed witness for C10 at a template mentioning both `%s` and `%N`. -/
theorem single_clock_read_witness :
    (mailProcessing ⟨cs "%s-%N", false, false, false, []⟩ (scanTokens (cs "%s-%N"))
      (cs "r") (cs "a") [cs "b"] (bs "body") ⟨7, 3⟩ none).1.countP
        (fun e => isClockRead e) = 1 :=
  ((single_clock_read ⟨cs "%s-%N", false, false, false, []⟩ (cs "r") (cs "a") [cs "b"]
    (bs "body") ⟨7, 3⟩ none).2 (by decide) (by decide)).1


/-! ### The `%h` boundary scan on bodies with fewer than three line feeds -/

/-- Drop everything up to and including the first line feed (no change when
none exists) -- the effect of one loop iteration on the remaining slice. -/
def dropNL (d : List Nat) : List Nat :=
  match firstNL d with
  | none => d
  | some k => d.drop (k + 1)

/-- The suffix of the body after its last line feed (the whole body if it has
none). -/
def afterLastLF (d : List Nat) : List Nat :=
  (d.reverse.takeWhile (fun b => b != 10)).reverse

theorem firstNL_eq_none (d : List Nat) (h : d.count 10 = 0) : firstNL d = none := by
  induction d with
  | nil => rfl
  | cons b r ih =>
    rw [List.count_cons] at h
    by_cases hb : b = 10
    · simp [hb] at h
    · simp only [firstNL, if_neg hb]
      rw [ih (by omega)]
      rfl

theorem firstNL_append (a b : List Nat) (ha : a.count 10 = 0) :
    firstNL (a ++ 10 :: b) = some a.length := by
  induction a with
  | nil => simp [firstNL]
  | cons x r ih =>
    rw [List.count_cons] at ha
    by_cases hx : x = 10
    · simp [hx] at ha
    · simp only [List.cons_append, firstNL, if_neg hx, List.append_eq]
      rw [ih (by omega)]
      simp

theorem dropNL_no_newline (d : List Nat) (h : d.count 10 = 0) : dropNL d = d := by
  simp [dropNL, firstNL_eq_none d h]

theorem dropNL_split (a b : List Nat) (ha : a.count 10 = 0) :
    dropNL (a ++ 10 :: b) = b := by
  simp only [dropNL, firstNL_append a b ha]
  have h1 : (a ++ 10 :: b).drop (a.length + 1) =
      ((a ++ 10 :: b).drop a.length).drop 1 := by
    rw [List.drop_drop]
    try congr 1
    try omega
  rw [h1, List.drop_left]
  try rfl

theorem stepNL_drop (d : List Nat) (p : Int) (hp : 0 ≤ p) :
    d.drop (stepNL d p).toNat = dropNL (d.drop p.toNat) := by
  unfold stepNL dropNL
  cases hf : firstNL (d.drop p.toNat) with
  | none =>
    simp only [hf]
    congr 1
    omega
  | some k =>
    simp only [hf]
    have h1 : (p + (k : Int) + 1).toNat = (k + 1) + p.toNat := by omega
    have h2 : List.drop (k + 1) (List.drop p.toNat d) = List.drop (k + 1 + p.toNat) d := by
      rw [List.drop_drop]
      try congr 1
      try omega
    rw [h1, ← h2]

theorem hashBodyInput_eq_dropNL (d : List Nat) :
    hashBodyInput d = dropNL (dropNL (dropNL d)) := by
  have b1 := stepNL_bounds d 0 (by omega) (by simp)
  have b2 := stepNL_bounds d (stepNL d 0) b1.1 b1.2
  have e1 : d.drop (stepNL d 0).toNat = dropNL d := by
    rw [stepNL_drop d 0 (by omega)]
    rfl
  have e2 : d.drop (stepNL d (stepNL d 0)).toNat = dropNL (dropNL d) := by
    rw [stepNL_drop d _ b1.1, e1]
  have e3 : d.drop (stepNL d (stepNL d (stepNL d 0))).toNat =
      dropNL (dropNL (dropNL d)) := by
    rw [stepNL_drop d _ b2.1, e2]
  unfold hashBodyInput payloadStart3 payloadStart2 payloadStart1
  exact e3

theorem takeWhile_all_of (p : Nat → Bool) (l : List Nat) (h : ∀ x ∈ l, p x = true) :
    l.takeWhile p = l := by
  induction l with
  | nil => rfl
  | cons x r ih =>
    rw [List.takeWhile_cons, if_pos (h x (by simp))]
    rw [ih (fun y hy => h y (by simp [hy]))]

theorem takeWhile_append_stop (p : Nat → Bool) (x : Nat) (l1 l2 : List Nat)
    (hx : p x = false) :
    (l1 ++ x :: l2).takeWhile p = l1.takeWhile p := by
  induction l1 with
  | nil => simp [List.takeWhile_cons, hx]
  | cons y r ih =>
    simp only [List.cons_append, List.takeWhile_cons]
    by_cases hy : p y = true
    · rw [if_pos hy, if_pos hy, ih]
    · rw [if_neg hy, if_neg hy]

theorem afterLastLF_no_newline (d : List Nat) (h : d.count 10 = 0) :
    afterLastLF d = d := by
  unfold afterLastLF
  rw [takeWhile_all_of]
  · simp
  · intro x hx
    rw [List.mem_reverse] at hx
    have h10 : (10 : Nat) ∉ d := List.count_eq_zero.mp h
    have : x ≠ 10 := fun he => h10 (he ▸ hx)
    simpa using this

theorem afterLastLF_append (a b : List Nat) :
    afterLastLF (a ++ 10 :: b) = afterLastLF b := by
  unfold afterLastLF
  have h1 : (a ++ 10 :: b).reverse = b.reverse ++ 10 :: a.reverse := by
    rw [List.reverse_append, List.reverse_cons]
    simp
  rw [h1, takeWhile_append_stop _ 10 _ _ (by simp)]

theorem exists_first_newline (d : List Nat) (h : d.count 10 ≠ 0) :
    ∃ a b, d = a ++ 10 :: b ∧ a.count 10 = 0 ∧ d.count 10 = b.count 10 + 1 := by
  induction d with
  | nil => simp at h
  | cons x r ih =>
    by_cases hx : x = 10
    · refine ⟨[], r, by simp [hx], by simp, ?_⟩
      simp [List.count_cons, hx]
    · have h' : r.count 10 ≠ 0 := by
        rw [List.count_cons] at h
        simpa [hx] using h
      obtain ⟨a, b, heq, ha, hc⟩ := ih h'
      refine ⟨x :: a, b, by rw [heq]; simp, ?_, ?_⟩
      · simp [List.count_cons, hx, ha]
      · simp [List.count_cons, hx]
        omega

set_option maxRecDepth 1000000 in
/-- **C2** (counterexample): the body `"abc"` contains fewer than three line
feeds, yet the `%h` digest is computed over the whole body, and that digest
differs from the digest of the empty payload. -/
theorem hashBody_not_empty_payload_cex :
    (bs "abc").count 10 = 0 ∧
    Event.hashBody (bs "abc") ∈
      (mailProcessing ⟨cs "%h", false, false, false, []⟩ (scanTokens (cs "%h")) (cs "r")
        (cs "a") [cs "b"] (bs "abc") ⟨0, 0⟩ none).1 ∧
    sha256 (hashBodyInput (bs "abc")) ≠ sha256 [] := by
  refine ⟨by decide, ?_, by decide⟩
  rw [hashBody_mem_iff]
  exact ⟨by decide, by decide⟩

/-- **C2** (amended): for every transaction body containing fewer than three
line-feed characters, the scan stays put once no line feed remains, so the
`%h` digest is computed over the suffix of the body after its last line feed
(the whole body when it has none) -- not over the empty payload -- and the
payload-start index stays in bounds, so nothing panics or reads out of
bounds. -/
theorem hashBody_few_newlines_suffix (d : List Nat) (h : d.count 10 < 3) :
    hashBodyInput d = afterLastLF d ∧
    0 ≤ payloadStart3 d ∧ payloadStart3 d ≤ d.length := by
  have b1 := stepNL_bounds d 0 (by omega) (by simp)
  have b2 := stepNL_bounds d (payloadStart1 d) b1.1 b1.2
  have b3 := stepNL_bounds d (payloadStart2 d) b2.1 b2.2
  refine ⟨?_, b3.1, b3.2⟩
  rw [hashBodyInput_eq_dropNL]
  by_cases h0 : d.count 10 = 0
  · rw [dropNL_no_newline _ h0, dropNL_no_newline _ h0, dropNL_no_newline _ h0,
      afterLastLF_no_newline _ h0]
  · obtain ⟨a, b, rfl, ha, hc⟩ := exists_first_newline d h0
    rw [dropNL_split a b ha, afterLastLF_append]
    by_cases h1 : b.count 10 = 0
    · rw [dropNL_no_newline _ h1, dropNL_no_newline _ h1, afterLastLF_no_newline _ h1]
    · obtain ⟨a2, b2x, rfl, ha2, hc2⟩ := exists_first_newline b h1
      rw [dropNL_split a2 b2x ha2, afterLastLF_append]
      have h2 : b2x.count 10 = 0 := by omega
      rw [dropNL_no_newline _ h2, afterLastLF_no_newline _ h2]

/-- Closed witness for the amended C2 at a body with one line feed. -/
theorem hashBody_few_newlines_suffix_witness :
    hashBodyInput (bs "a\nb") = afterLastLF (bs "a\nb") ∧
    0 ≤ payloadStart3 (bs "a\nb") ∧ payloadStart3 (bs "a\nb") ≤ (bs "a\nb").length :=
  hashBody_few_newlines_suffix (bs "a\nb") (by decide)


/-! ### Character-class lemmas for the substituted values -/

theorem getD_ne_pct (l : List Char) (n : Nat) (d : Char)
    (hl : ∀ x ∈ l, x ≠ '%') (hd : d ≠ '%') : l.getD n d ≠ '%' := by
  induction l generalizing n with
  | nil => simpa [List.getD] using hd
  | cons x xs ih =>
    cases n with
    | zero => simpa [List.getD] using hl x (by simp)
    | succ m =>
      simp only [List.getD_cons_succ]
      exact ih m (fun y hy => hl y (by simp [hy]))

theorem digitChar_ne_pct (n : Nat) : digitChar n ≠ '%' :=
  getD_ne_pct _ _ _ (by decide) (by decide)

theorem hexDigit_ne_pct (n : Nat) : hexDigit n ≠ '%' :=
  getD_ne_pct _ _ _ (by decide) (by decide)

theorem natDecAux_no_pct (fuel n : Nat) : ∀ ch ∈ natDecAux fuel n, ch ≠ '%' := by
  induction fuel generalizing n with
  | zero => simp [natDecAux]
  | succ f ih =>
    intro ch hch
    simp only [natDecAux] at hch
    by_cases h10 : n < 10
    · rw [if_pos h10] at hch
      simp at hch
      exact hch ▸ digitChar_ne_pct n
    · rw [if_neg h10] at hch
      rcases List.mem_append.mp hch with h | h
      · exact ih _ ch h
      · simp at h
        exact h ▸ digitChar_ne_pct (n % 10)

theorem natDec_no_pct (n : Nat) : ∀ ch ∈ natDec n, ch ≠ '%' :=
  natDecAux_no_pct (n + 1) n

theorem intDec_no_pct (i : Int) : ∀ ch ∈ intDec i, ch ≠ '%' := by
  intro ch hch
  unfold intDec at hch
  by_cases hneg : i < 0
  · rw [if_pos hneg] at hch
    rcases List.mem_cons.mp hch with h | h
    · rw [h]; decide
    · exact natDec_no_pct _ ch h
  · rw [if_neg hneg] at hch
    exact natDec_no_pct _ ch hch

theorem pad9_no_pct (n : Nat) : ∀ ch ∈ pad9 n, ch ≠ '%' := by
  intro ch hch
  rcases List.mem_append.mp hch with h | h
  · rw [List.eq_of_mem_replicate h]; decide
  · exact natDec_no_pct _ ch h

theorem hexEncode_no_pct (l : List Nat) : ∀ ch ∈ hexEncode l, ch ≠ '%' := by
  intro ch hch
  simp only [hexEncode, List.mem_join, List.mem_map] at hch
  obtain ⟨piece, ⟨b, _hb, rfl⟩, hmem⟩ := hch
  rcases List.mem_cons.mp hmem with h | h
  · exact h ▸ hexDigit_ne_pct (b / 16)
  · simp at h
    exact h ▸ hexDigit_ne_pct (b % 16)

theorem natDecAux_ne_nil (fuel n : Nat) : natDecAux (fuel + 1) n ≠ [] := by
  simp only [natDecAux]
  by_cases h10 : n < 10
  · rw [if_pos h10]; simp
  · rw [if_neg h10]; simp

theorem natDec_ne_nil (n : Nat) : natDec n ≠ [] := natDecAux_ne_nil n n

theorem intDec_ne_nil (i : Int) : intDec i ≠ [] := by
  unfold intDec
  by_cases hneg : i < 0
  · rw [if_pos hneg]; simp
  · rw [if_neg hneg]; exact natDec_ne_nil _

theorem pad9_ne_nil (n : Nat) : pad9 n ≠ [] := by
  unfold pad9
  intro h
  rcases List.append_eq_nil.mp h with ⟨_, h2⟩
  exact natDec_ne_nil n h2

theorem getLast?_ne_of_all (l : List Char) (h : ∀ ch ∈ l, ch ≠ '%') :
    l.getLast? ≠ some '%' := by
  induction l with
  | nil => simp
  | cons x xs ih =>
    cases xs with
    | nil => simpa using h x (by simp)
    | cons y ys =>
      rw [List.getLast?_cons_cons]
      exact ih (fun ch hch => h ch (by simp [hch]))

/-! ### The scanner over `%`-free segments -/

theorem rTok_pctFree (c : Char) (val : List Char) (w rest : List Char) (a : Nat)
    (hw : ∀ y ∈ w, y ≠ '%') :
    rTok c val 0 a (w ++ rest) = w ++ rTok c val 0 (if w.isEmpty then a else 1) rest := by
  induction w generalizing a with
  | nil => simp
  | cons y w2 ih =>
    have hy : y ≠ '%' := hw y (by simp)
    simp only [List.cons_append, rTok, if_neg hy, List.append_eq]
    rw [if_neg (by simp)]
    simp only [List.replicate, List.nil_append]
    rw [ih 1 (fun z hz => hw z (by simp [hz]))]
    simp [List.isEmpty_cons]

theorem rTok_pctFree_ne (c : Char) (val : List Char) (w rest : List Char) (a : Nat)
    (hw : ∀ y ∈ w, y ≠ '%') (hne : w.isEmpty = false) :
    rTok c val 0 a (w ++ rest) = w ++ rTok c val 0 1 rest := by
  rw [rTok_pctFree c val w rest a hw, hne]
  simp

theorem percentUnescape_pctFree (l : List Char) (h : ∀ y ∈ l, y ≠ '%') :
    percentUnescape l = l := by
  induction l with
  | nil => rfl
  | cons x xs ih =>
    cases xs with
    | nil => rfl
    | cons y ys =>
      have hx : x ≠ '%' := h x (by simp)
      simp only [percentUnescape, if_neg (by simp [hx] : ¬(x = '%' ∧ y = '%'))]
      rw [ih (fun z hz => h z (by simp [hz]))]

/-! ### The concrete C3 scenario -/

/-- The resolved path of the concrete scenario: template `/tmp/mail-%s-%h.eml`
against the three-header body, at an arbitrary reception time. -/
theorem resolvedFilename_scenario (now : GoTime) :
    resolvedFilename (cs "/tmp/mail-%s-%h.eml") (scanTokens (cs "/tmp/mail-%s-%h.eml"))
      (bs "X-From: a\nX-To: b\nX-Date: c\npayload") now =
    cs "/tmp/mail-" ++ intDec now.unix ++ cs "-" ++
      hexEncode (sha256 (bs "payload")) ++ cs ".eml" := by
  have hfl : scanTokens (cs "/tmp/mail-%s-%h.eml") = ⟨2, true, false⟩ := by decide
  have hinp : hashBodyInput (bs "X-From: a\nX-To: b\nX-Date: c\npayload") = bs "payload" := by
    decide
  rw [hfl]
  simp only [resolvedFilename, substitutedFilename, hinp]
  norm_num
  have s1 : replaceTok 's' (intDec now.unix) (cs "/tmp/mail-%s-%h.eml") =
      cs "/tmp/mail-" ++ (intDec now.unix ++ cs "-%h.eml") := rfl
  rw [s1]
  have hc1 : ∀ y ∈ cs "/tmp/mail-", y ≠ '%' := by decide
  have hc2 : ∀ y ∈ cs "-", y ≠ '%' := by decide
  have hc3 : ∀ y ∈ cs ".eml", y ≠ '%' := by decide
  have hw : ∀ y ∈ cs "/tmp/mail-" ++ intDec now.unix, y ≠ '%' := by
    intro y hy
    rcases List.mem_append.mp hy with h | h
    · exact hc1 y h
    · exact intDec_no_pct _ y h
  have hne : (cs "/tmp/mail-" ++ intDec now.unix).isEmpty = false := by
    simp [cs, List.isEmpty]
  have s2 : replaceTok 'h' (hexEncode (sha256 (bs "payload")))
      (cs "/tmp/mail-" ++ (intDec now.unix ++ cs "-%h.eml")) =
      cs "/tmp/mail-" ++ intDec now.unix ++ cs "-" ++
        hexEncode (sha256 (bs "payload")) ++ cs ".eml" := by
    unfold replaceTok
    have hassoc : cs "/tmp/mail-" ++ (intDec now.unix ++ cs "-%h.eml") =
        (cs "/tmp/mail-" ++ intDec now.unix) ++ cs "-%h.eml" := by
      simp [List.append_assoc]
    rw [hassoc, rTok_pctFree_ne _ _ _ _ _ hw hne]
    have hrest : rTok 'h' (hexEncode (sha256 (bs "payload"))) 0 1 (cs "-%h.eml") =
        cs "-" ++ hexEncode (sha256 (bs "payload")) ++ cs ".eml" := rfl
    rw [hrest]
    simp [List.append_assoc]
  rw [s2]
  have hall : ∀ y ∈ cs "/tmp/mail-" ++ intDec now.unix ++ cs "-" ++
      hexEncode (sha256 (bs "payload")) ++ cs ".eml", y ≠ '%' := by
    intro y hy
    simp only [List.mem_append] at hy
    rcases hy with ((((h | h) | h) | h) | h)
    · exact hc1 y h
    · exact intDec_no_pct _ y h
    · exact hc2 y h
    · exact hexEncode_no_pct _ y h
    · exact hc3 y h
  have hfull_ne : (cs "/tmp/mail-" ++ intDec now.unix ++ cs "-" ++
      hexEncode (sha256 (bs "payload")) ++ cs ".eml") ≠ [] := by
    simp [cs]
  rw [if_neg hfull_ne, percentUnescape_pctFree _ hall]
  simp [List.append_assoc]

/-- **C3**: three LF-terminated header lines then payload. -/
theorem three_header_lines_and_scenario :
    (∀ (h1 h2 h3 P : List Nat), (10 : Nat) ∉ h1 → (10 : Nat) ∉ h2 → (10 : Nat) ∉ h3 →
      hashBodyInput (h1 ++ 10 :: (h2 ++ 10 :: (h3 ++ 10 :: P))) = P ∧
      sha256 (hashBodyInput (h1 ++ 10 :: (h2 ++ 10 :: (h3 ++ 10 :: P)))) = sha256 P) ∧
    (∀ (now : GoTime) (remote : List Char) (writeErr : Option (List Char)),
      resolvedFilename (cs "/tmp/mail-%s-%h.eml") (scanTokens (cs "/tmp/mail-%s-%h.eml"))
          (bs "X-From: a\nX-To: b\nX-Date: c\npayload") now =
        cs "/tmp/mail-" ++ intDec now.unix ++ cs "-" ++
          hexEncode (sha256 (bs "payload")) ++ cs ".eml" ∧
      Event.writeFile
          (cs "/tmp/mail-" ++ intDec now.unix ++ cs "-" ++
            hexEncode (sha256 (bs "payload")) ++ cs ".eml")
          (bs "X-From: a\nX-To: b\nX-Date: c\npayload") ∈
        (mailProcessing ⟨cs "/tmp/mail-%s-%h.eml", false, false, false, []⟩
          (scanTokens (cs "/tmp/mail-%s-%h.eml")) remote (cs "alice@example.com")
          [cs "bob@example.com"] (bs "X-From: a\nX-To: b\nX-Date: c\npayload") now
          writeErr).1 ∧
      (∃ line, Event.logPrint line ∈
          (mailProcessing ⟨cs "/tmp/mail-%s-%h.eml", false, false, false, []⟩
            (scanTokens (cs "/tmp/mail-%s-%h.eml")) remote (cs "alice@example.com")
            [cs "bob@example.com"] (bs "X-From: a\nX-To: b\nX-Date: c\npayload") now
            writeErr).1 ∧
        (∃ u v, line = u ++ cs "alice@example.com" ++ v) ∧
        (∃ u v, line = u ++ cs "bob@example.com" ++ v) ∧
        (∃ u v, line = u ++ (cs "/tmp/mail-" ++ intDec now.unix ++ cs "-" ++
          hexEncode (sha256 (bs "payload")) ++ cs ".eml") ++ v))) := by
  constructor
  · intro h1 h2 h3 P m1 m2 m3
    have c1 : h1.count 10 = 0 := List.count_eq_zero.mpr m1
    have c2 : h2.count 10 = 0 := List.count_eq_zero.mpr m2
    have c3 : h3.count 10 = 0 := List.count_eq_zero.mpr m3
    have key : hashBodyInput (h1 ++ 10 :: (h2 ++ 10 :: (h3 ++ 10 :: P))) = P := by
      rw [hashBodyInput_eq_dropNL, dropNL_split _ _ c1, dropNL_split _ _ c2,
        dropNL_split _ _ c3]
    exact ⟨key, by rw [key]⟩
  · intro now remote writeErr
    have hres := resolvedFilename_scenario now
    have hpne : (cs "/tmp/mail-" ++ intDec now.unix ++ cs "-" ++
        hexEncode (sha256 (bs "payload")) ++ cs ".eml") ≠ [] := by
      simp [cs]
    refine ⟨hres, ?_, ?_⟩
    · rw [writeFile_mem_iff]
      refine ⟨?_, hres.symm, rfl⟩
      rw [hres]
      exact hpne
    · refine ⟨logLine ⟨cs "/tmp/mail-%s-%h.eml", false, false, false, []⟩ remote
        (cs "alice@example.com") [cs "bob@example.com"]
        (bs "X-From: a\nX-To: b\nX-Date: c\npayload")
        (resolvedFilename (cs "/tmp/mail-%s-%h.eml")
          (scanTokens (cs "/tmp/mail-%s-%h.eml"))
          (bs "X-From: a\nX-To: b\nX-Date: c\npayload") now), ?_, ?_, ?_, ?_⟩
      · rw [logPrint_mem_iff]
        exact ⟨rfl, rfl⟩
      · refine ⟨cs "remote: " ++ remote ++ cs ", MAIL From: <",
          cs ">, RCPT To: [" ++ cs "bob@example.com" ++ cs "]" ++
            cs " mail data: \"" ++ (cs "/tmp/mail-" ++ intDec now.unix ++ cs "-" ++
            hexEncode (sha256 (bs "payload")) ++ cs ".eml") ++ cs "\"", ?_⟩
        have hint : List.intercalate (cs " ") [cs "bob@example.com"] =
            cs "bob@example.com" := rfl
        rw [hres]
        simp [logLine, hpne, hint, List.append_assoc]
        try (intro hc; exact absurd hc (by decide))
      · refine ⟨cs "remote: " ++ remote ++ cs ", MAIL From: <" ++
            cs "alice@example.com" ++ cs ">, RCPT To: [",
          cs "]" ++ cs " mail data: \"" ++ (cs "/tmp/mail-" ++ intDec now.unix ++
            cs "-" ++ hexEncode (sha256 (bs "payload")) ++ cs ".eml") ++ cs "\"", ?_⟩
        have hint : List.intercalate (cs " ") [cs "bob@example.com"] =
            cs "bob@example.com" := rfl
        rw [hres]
        simp [logLine, hpne, hint, List.append_assoc]
        try (intro hc; exact absurd hc (by decide))
      · refine ⟨cs "remote: " ++ remote ++ cs ", MAIL From: <" ++
            cs "alice@example.com" ++ cs ">, RCPT To: [" ++ cs "bob@example.com" ++
            cs "]" ++ cs " mail data: \"", cs "\"", ?_⟩
        have hint : List.intercalate (cs " ") [cs "bob@example.com"] =
            cs "bob@example.com" := rfl
        rw [hres]
        simp [logLine, hpne, hint, List.append_assoc]
        try (intro hc; exact absurd hc (by decide))

/-- Closed witness for C3 at concrete header lines and payload. -/
theorem three_header_lines_and_scenario_witness :
    hashBodyInput (bs "X-From: a" ++ 10 :: (bs "X-To: b" ++ 10 :: (bs "X-Date: c" ++
      10 :: bs "payload"))) = bs "payload" :=
  (three_header_lines_and_scenario.1 (bs "X-From: a") (bs "X-To: b") (bs "X-Date: c")
    (bs "payload") (by decide) (by decide) (by decide)).1

/-! ### The exact match contexts of the token regexes (C1) -/

theorem addFlag_pct (f : Flags) : addFlag '%' f = f := by
  simp [addFlag]

theorem scanTokens_pairs (n : Nat) (l : List Char) :
    scanTokens (List.replicate (2 * n) '%' ++ l) = scanTokens l := by
  induction n with
  | zero => simp
  | succ m ih =>
    have h2 : 2 * (m + 1) = 2 * m + 1 + 1 := by ring
    rw [h2, List.replicate_succ, List.replicate_succ]
    simp only [List.cons_append, scanTokens, List.append_eq]
    rw [addFlag_pct, ih]

theorem rTok_absorb (c : Char) (val : List Char) (k p a : Nat) (ys : List Char) :
    rTok c val p a (List.replicate k '%' ++ ys) = rTok c val (p + k) a ys := by
  induction k generalizing p with
  | zero => simp
  | succ m ih =>
    rw [List.replicate_succ]
    simp only [List.cons_append, rTok, List.append_eq, if_true]
    rw [ih (p + 1)]
    congr 1
    omega

theorem percentUnescape_even_run (k : Nat) (l : List Char) :
    percentUnescape (List.replicate (2 * k) '%' ++ l) =
      List.replicate k '%' ++ percentUnescape l := by
  induction k with
  | zero => simp
  | succ m ih =>
    have h2 : 2 * (m + 1) = 2 * m + 1 + 1 := by ring
    rw [h2, List.replicate_succ, List.replicate_succ]
    simp only [List.cons_append]
    rw [show percentUnescape ('%' :: '%' :: (List.replicate (2 * m) '%' ++ l)) =
        '%' :: percentUnescape (List.replicate (2 * m) '%' ++ l) from rfl]
    rw [ih, List.replicate_succ]
    rfl

theorem percentUnescape_pctFree_append (w l : List Char) (hw : ∀ y ∈ w, y ≠ '%') :
    percentUnescape (w ++ l) = w ++ percentUnescape l := by
  induction w with
  | nil => rfl
  | cons x w2 ih =>
    have hx : x ≠ '%' := hw x (by simp)
    cases hwl : w2 ++ l with
    | nil =>
      rcases List.append_eq_nil.mp hwl with ⟨rfl, rfl⟩
      rfl
    | cons y ys =>
      simp only [List.cons_append, hwl, percentUnescape,
        if_neg (by simp [hx] : ¬(x = '%' ∧ y = '%'))]
      rw [← hwl, ih (fun z hz => hw z (by simp [hz]))]

theorem resolvedFilename_ts_only (t : List Char) (d : List Nat) (now : GoTime) :
    resolvedFilename t ⟨2, false, false⟩ d now =
      (if replaceTok 's' (intDec now.unix) t = [] then replaceTok 's' (intDec now.unix) t
       else percentUnescape (replaceTok 's' (intDec now.unix) t)) := by
  simp only [resolvedFilename, substitutedFilename]
  norm_num

/-- **C1** (counterexample): with template `%%%s` (a token at start-of-string
after an escaped `%%` pair) the token is NOT substituted -- the resolved path
is `%%s`, not `%5` -- and with template `%s%s` (a token immediately following
another token occurrence) only the first is substituted -- the resolved path
is `5%s`, not `55`. -/
theorem token_context_cex :
    resolvedFilename (cs "%%%s") (scanTokens (cs "%%%s")) [] ⟨5, 0⟩ = cs "%%s" ∧
    resolvedFilename (cs "%s%s") (scanTokens (cs "%s%s")) [] ⟨5, 0⟩ = cs "5%s" :=
  ⟨by decide, by decide⟩

/-- **C1** (amended): the resolver replaces the leftmost non-overlapping
matches of "start-of-string immediately followed by the token, or a non-`%`
character followed by an even number of `%`s and then the token"; consequently
a token at start-of-string preceded by one or more escaped `%%` pairs is not
substituted (the `^` alternative admits no pairs), and of two immediately
adjacent occurrences of the same token only the first is substituted (matches
never overlap, and a new match needs its own non-`%` anchor). -/
theorem token_context_amended :
    (∀ n : Nat, 1 ≤ n → ∀ (data : List Nat) (now : GoTime),
      resolvedFilename (List.replicate (2 * n) '%' ++ cs "%s")
        (scanTokens (List.replicate (2 * n) '%' ++ cs "%s")) data now =
      List.replicate n '%' ++ cs "%s") ∧
    (∀ (data : List Nat) (now : GoTime),
      resolvedFilename (cs "%s%s") (scanTokens (cs "%s%s")) data now =
      intDec now.unix ++ cs "%s") := by
  constructor
  · intro n hn data now
    rw [scanTokens_pairs]
    have hfl : scanTokens (cs "%s") = ⟨2, false, false⟩ := by decide
    rw [hfl, resolvedFilename_ts_only]
    have hsplit : List.replicate (2 * n) '%' ++ cs "%s" =
        List.replicate (2 * n + 1) '%' ++ ['s'] := by
      rw [List.replicate_succ']
      simp [cs]
    have hts : replaceTok 's' (intDec now.unix)
        (List.replicate (2 * n) '%' ++ cs "%s") =
        List.replicate (2 * n) '%' ++ cs "%s" := by
      unfold replaceTok
      rw [hsplit, rTok_absorb]
      simp only [rTok]
      simp [show ¬(0 + (2 * n + 1) = 1) from by omega,
        show (0 + (2 * n + 1)) % 2 = 1 from by omega, List.replicate]
      intro _ h0
      exact absurd h0 (by omega)
    rw [hts]
    have hne : List.replicate (2 * n) '%' ++ cs "%s" ≠ [] := by simp [cs]
    rw [if_neg hne, percentUnescape_even_run]
    rfl
  · intro data now
    have hfl : scanTokens (cs "%s%s") = ⟨2, false, false⟩ := by decide
    rw [hfl, resolvedFilename_ts_only]
    have hts : replaceTok 's' (intDec now.unix) (cs "%s%s") =
        intDec now.unix ++ cs "%s" := rfl
    rw [hts]
    have hne : intDec now.unix ++ cs "%s" ≠ [] := by
      intro hc
      rcases List.append_eq_nil.mp hc with ⟨_, h2⟩
      exact absurd h2 (by decide)
    rw [if_neg hne, percentUnescape_pctFree_append _ _ (intDec_no_pct now.unix)]
    rfl

/-- Closed witness for the amended C1 at one escaped pair before the token. -/
theorem token_context_amended_witness :
    resolvedFilename (List.replicate (2 * 1) '%' ++ cs "%s")
      (scanTokens (List.replicate (2 * 1) '%' ++ cs "%s")) [] ⟨5, 0⟩ =
    List.replicate 1 '%' ++ cs "%s" :=
  token_context_amended.1 1 (by decide) [] ⟨5, 0⟩

/-! ### Escape-pair and lone-percent preservation (C5) -/

theorem getLast?_cons_ne (a : Char) (l : List Char) (h : l ≠ []) :
    (a :: l).getLast? = l.getLast? := by
  cases l with
  | nil => exact absurd rfl h
  | cons b m => exact List.getLast?_cons_cons

theorem getLast?_append_right (l1 l2 : List Char) (h : l2 ≠ []) :
    (l1 ++ l2).getLast? = l2.getLast? := by
  induction l1 with
  | nil => rfl
  | cons a l1' ih =>
    rw [List.cons_append, getLast?_cons_ne a _ (by simp [h]), ih]

/-- A `%` whose successor is neither `%` nor the token letter is never
consumed by a `ReplaceAllString` pass: the pair survives adjacent. -/
theorem rTok_keeps_lone_pct (c : Char) (val : List Char) (y : Char)
    (hy : y ≠ '%') (hyc : y ≠ c) :
    ∀ (u : List Char) (p a : Nat) (v : List Char),
    ∃ u2 v2, rTok c val p a (u ++ '%' :: y :: v) = u2 ++ '%' :: y :: v2 := by
  intro u
  induction u with
  | nil =>
    intro p a v
    have step1 : rTok c val p a ('%' :: y :: v) = rTok c val (p + 1) a (y :: v) := by
      simp [rTok]
    have step2 : rTok c val (p + 1) a (y :: v) =
        List.replicate (p + 1) '%' ++ y :: rTok c val 0 1 v := by
      simp only [rTok, if_neg hy]
      rw [if_neg]
      intro hcon
      exact hyc hcon.1
    refine ⟨List.replicate p '%', rTok c val 0 1 v, ?_⟩
    rw [List.nil_append, step1, step2, List.replicate_succ']
    simp [List.append_assoc]
  | cons z u2 ih =>
    intro p a v
    by_cases hz : z = '%'
    · subst hz
      obtain ⟨u3, v3, h3⟩ := ih (p + 1) a v
      refine ⟨u3, v3, ?_⟩
      rw [List.cons_append, show rTok c val p a ('%' :: (u2 ++ '%' :: y :: v)) =
        rTok c val (p + 1) a (u2 ++ '%' :: y :: v) from by simp [rTok], h3]
    · by_cases hm : z = c ∧ p % 2 = 1 ∧ (a = 1 ∨ a = 2 ∧ p = 1)
      · obtain ⟨u3, v3, h3⟩ := ih 0 0 v
        refine ⟨List.replicate (p - 1) '%' ++ val ++ u3, v3, ?_⟩
        rw [List.cons_append, show rTok c val p a (z :: (u2 ++ '%' :: y :: v)) =
          List.replicate (p - 1) '%' ++ val ++ rTok c val 0 0 (u2 ++ '%' :: y :: v) from by
            simp only [rTok, if_neg hz, if_pos hm], h3]
        simp [List.append_assoc]
      · obtain ⟨u3, v3, h3⟩ := ih 0 1 v
        refine ⟨List.replicate p '%' ++ z :: u3, v3, ?_⟩
        rw [List.cons_append, show rTok c val p a (z :: (u2 ++ '%' :: y :: v)) =
          List.replicate p '%' ++ z :: rTok c val 0 1 (u2 ++ '%' :: y :: v) from by
            simp only [rTok, if_neg hz, if_neg hm], h3]
        simp [List.append_assoc]

/-- An occurrence of `%%s` preceded by an even run of `%` (itself preceded by
a non-`%` character or the start of the string) survives every
`ReplaceAllString` pass, with the emitted prefix again not ending in `%`. -/
theorem rTok_keeps_escS (c : Char) (val : List Char) (hv1 : val ≠ [])
    (hv2 : val.getLast? ≠ some '%') :
    ∀ (u : List Char) (p a m : Nat) (v : List Char),
    2 ≤ m → m % 2 = 0 → u.getLast? ≠ some '%' → (u = [] → p = 0) →
    ∃ u2 v2, rTok c val p a (u ++ (List.replicate m '%' ++ 's' :: v)) =
      u2 ++ (List.replicate m '%' ++ 's' :: v2) ∧ u2.getLast? ≠ some '%' := by
  intro u
  induction u with
  | nil =>
    intro p a m v hm2 hme _ hp
    rw [hp rfl, List.nil_append, rTok_absorb]
    have hcond : ¬('s' = c ∧ (0 + m) % 2 = 1 ∧ (a = 1 ∨ a = 2 ∧ 0 + m = 1)) := by
      rintro ⟨-, hodd, -⟩
      omega
    refine ⟨[], rTok c val 0 1 v, ?_, by simp⟩
    rw [show rTok c val (0 + m) a ('s' :: v) =
      List.replicate (0 + m) '%' ++ 's' :: rTok c val 0 1 v from by
        simp only [rTok, if_neg (by decide : ¬(('s' : Char) = '%')), if_neg hcond]]
    simp
  | cons z u2 ih =>
    intro p a m v hm2 hme hu hp
    have hu2 : u2.getLast? ≠ some '%' := by
      cases u2 with
      | nil => simp
      | cons w u3 =>
        rw [List.getLast?_cons_cons] at hu
        exact hu
    by_cases hz : z = '%'
    · subst hz
      have hu2ne : u2 ≠ [] := by
        intro h
        subst h
        simp at hu
      obtain ⟨u3, v3, h3, hl3⟩ := ih (p + 1) a m v hm2 hme hu2 (fun h => absurd h hu2ne)
      refine ⟨u3, v3, ?_, hl3⟩
      rw [List.cons_append, show rTok c val p a
        ('%' :: (u2 ++ (List.replicate m '%' ++ 's' :: v))) =
        rTok c val (p + 1) a (u2 ++ (List.replicate m '%' ++ 's' :: v)) from by
          simp [rTok], h3]
    · by_cases hmatch : z = c ∧ p % 2 = 1 ∧ (a = 1 ∨ a = 2 ∧ p = 1)
      · obtain ⟨u3, v3, h3, hl3⟩ := ih 0 0 m v hm2 hme hu2 (fun _ => rfl)
        refine ⟨List.replicate (p - 1) '%' ++ val ++ u3, v3, ?_, ?_⟩
        · rw [List.cons_append, show rTok c val p a
            (z :: (u2 ++ (List.replicate m '%' ++ 's' :: v))) =
            List.replicate (p - 1) '%' ++ val ++
              rTok c val 0 0 (u2 ++ (List.replicate m '%' ++ 's' :: v)) from by
              simp only [rTok, if_neg hz, if_pos hmatch], h3]
          simp [List.append_assoc]
        · by_cases hu3 : u3 = []
          · subst hu3
            rw [show List.replicate (p - 1) '%' ++ val ++ ([] : List Char) =
              List.replicate (p - 1) '%' ++ val from by simp]
            rw [getLast?_append_right _ val hv1]
            exact hv2
          · rw [List.append_assoc, getLast?_append_right _ (val ++ u3) (by simp [hv1]),
              getLast?_append_right _ u3 hu3]
            exact hl3
      · obtain ⟨u3, v3, h3, hl3⟩ := ih 0 1 m v hm2 hme hu2 (fun _ => rfl)
        refine ⟨List.replicate p '%' ++ z :: u3, v3, ?_, ?_⟩
        · rw [List.cons_append, show rTok c val p a
            (z :: (u2 ++ (List.replicate m '%' ++ 's' :: v))) =
            List.replicate p '%' ++ z ::
              rTok c val 0 1 (u2 ++ (List.replicate m '%' ++ 's' :: v)) from by
              simp only [rTok, if_neg hz, if_neg hmatch], h3]
          simp [List.append_assoc]
        · rw [getLast?_append_right _ (z :: u3) (by simp)]
          cases u3 with
          | nil => simpa using hz
          | cons w u4 =>
            rw [List.getLast?_cons_cons]
            exact hl3



theorem percentUnescape_cons_ne (x : Char) (hx : x ≠ '%') (l : List Char) :
    percentUnescape (x :: l) = x :: percentUnescape l := by
  cases l with
  | nil => rfl
  | cons y ys =>
    simp only [percentUnescape, if_neg (by simp [hx] : ¬(x = '%' ∧ y = '%'))]

theorem percentUnescape_append_lastNot :
    ∀ (u l : List Char), u.getLast? ≠ some '%' →
      percentUnescape (u ++ l) = percentUnescape u ++ percentUnescape l
  | [], _, _ => rfl
  | [x], l, hu => by
    have hx : x ≠ '%' := by simpa using hu
    rw [show ([x] : List Char) ++ l = x :: l from rfl, percentUnescape_cons_ne x hx l]
    rfl
  | x :: y :: u3, l, hu => by
    by_cases hxy : x = '%' ∧ y = '%'
    · obtain ⟨rfl, rfl⟩ := hxy
      have hu3ne : u3 ≠ [] := by
        intro h
        subst h
        simp at hu
      have hu3 : u3.getLast? ≠ some '%' := by
        rw [List.getLast?_cons_cons, getLast?_cons_ne _ _ hu3ne] at hu
        exact hu
      rw [show ('%' :: '%' :: u3) ++ l = '%' :: '%' :: (u3 ++ l) from rfl]
      rw [show percentUnescape ('%' :: '%' :: (u3 ++ l)) =
        '%' :: percentUnescape (u3 ++ l) from by simp [percentUnescape]]
      rw [percentUnescape_append_lastNot u3 l hu3]
      rw [show percentUnescape ('%' :: '%' :: u3) = '%' :: percentUnescape u3 from by
        simp [percentUnescape]]
      rfl
    · have hyu : (y :: u3).getLast? ≠ some '%' := by
        rw [List.getLast?_cons_cons] at hu
        exact hu
      rw [show (x :: y :: u3) ++ l = x :: y :: (u3 ++ l) from rfl]
      rw [show percentUnescape (x :: y :: (u3 ++ l)) =
        x :: percentUnescape (y :: (u3 ++ l)) from by
          simp only [percentUnescape, if_neg hxy]]
      rw [show (y :: (u3 ++ l)) = (y :: u3) ++ l from rfl]
      rw [percentUnescape_append_lastNot (y :: u3) l hyu]
      rw [show percentUnescape (x :: y :: u3) = x :: percentUnescape (y :: u3) from by
        simp only [percentUnescape, if_neg hxy]]
      rfl

theorem intDec_getLast (i : Int) : (intDec i).getLast? ≠ some '%' :=
  getLast?_ne_of_all _ (intDec_no_pct i)

theorem pad9_getLast (n : Nat) : (pad9 n).getLast? ≠ some '%' :=
  getLast?_ne_of_all _ (pad9_no_pct n)

theorem hexEncode_getLast (l : List Nat) : (hexEncode l).getLast? ≠ some '%' :=
  getLast?_ne_of_all _ (hexEncode_no_pct l)

theorem sha256_ne_nil (msg : List Nat) : sha256 msg ≠ [] := by
  simp [sha256, wordBytes]

theorem hexEncode_ne_nil (l : List Nat) (h : l ≠ []) : hexEncode l ≠ [] := by
  cases l with
  | nil => exact absurd rfl h
  | cons b r => simp [hexEncode]

/-- The template contains `%%s` with an even run of `%` before the `s`,
anchored by a non-`%` character or the string start. -/
def EscSOcc (t : List Char) : Prop :=
  ∃ u m v, t = u ++ (List.replicate m '%' ++ 's' :: v) ∧ 2 ≤ m ∧ m % 2 = 0 ∧
    u.getLast? ≠ some '%'

/-- The template contains a `%` immediately followed by `y`. -/
def LonePct (y : Char) (t : List Char) : Prop :=
  ∃ u v, t = u ++ '%' :: y :: v

theorem replaceTok_escS (c : Char) (val : List Char) (hv1 : val ≠ [])
    (hv2 : val.getLast? ≠ some '%') (t : List Char) (h : EscSOcc t) :
    EscSOcc (replaceTok c val t) := by
  obtain ⟨u, m, v, rfl, hm2, hme, hu⟩ := h
  obtain ⟨u2, v2, heq, hl⟩ :=
    rTok_keeps_escS c val hv1 hv2 u 0 2 m v hm2 hme hu (fun _ => rfl)
  exact ⟨u2, m, v2, heq, hm2, hme, hl⟩

theorem replaceTok_lone (c : Char) (val : List Char) (y : Char) (hy : y ≠ '%')
    (hyc : y ≠ c) (t : List Char) (h : LonePct y t) : LonePct y (replaceTok c val t) := by
  obtain ⟨u, v, rfl⟩ := h
  obtain ⟨u2, v2, heq⟩ := rTok_keeps_lone_pct c val y hy hyc u 0 2 v
  exact ⟨u2, v2, heq⟩

theorem substitutedFilename_escS (t : List Char) (fl : Flags) (data : List Nat)
    (now : GoTime) (h : EscSOcc t) :
    EscSOcc (substitutedFilename t fl data now) := by
  have stepH : ∀ s, EscSOcc s → EscSOcc (replaceTok 'H' (hexEncode (sha256 data)) s) :=
    fun s hs => replaceTok_escS _ _ (hexEncode_ne_nil _ (sha256_ne_nil _))
      (hexEncode_getLast _) s hs
  have steph : ∀ s, EscSOcc s →
      EscSOcc (replaceTok 'h' (hexEncode (sha256 (hashBodyInput data))) s) :=
    fun s hs => replaceTok_escS _ _ (hexEncode_ne_nil _ (sha256_ne_nil _))
      (hexEncode_getLast _) s hs
  have stepS : ∀ s, EscSOcc s → EscSOcc (replaceTok 's' (intDec now.unix) s) :=
    fun s hs => replaceTok_escS _ _ (intDec_ne_nil _) (intDec_getLast _) s hs
  have stepN : ∀ s, EscSOcc s → EscSOcc (replaceTok 'N' (pad9 now.nanosecond) s) :=
    fun s hs => replaceTok_escS _ _ (pad9_ne_nil _) (pad9_getLast _) s hs
  by_cases h1 : fl.needTimestamp > 0 <;>
    by_cases h1a : fl.needTimestamp &&& 1 > 0 <;>
    by_cases h1b : fl.needTimestamp &&& 2 > 0 <;>
    by_cases h2 : fl.needDataHash = true <;>
    by_cases h3 : fl.needFullDataHash = true <;>
    simp only [substitutedFilename, h1, h1a, h1b, h2, h3, if_true, if_false] <;>
    repeat
      first
        | exact h
        | apply stepH _
        | apply steph _
        | apply stepS _
        | apply stepN _

theorem substitutedFilename_lone (y : Char) (hy : y ≠ '%') (hyh : y ≠ 'h')
    (hyH : y ≠ 'H') (hys : y ≠ 's') (hyN : y ≠ 'N') (t : List Char) (fl : Flags)
    (data : List Nat) (now : GoTime) (h : LonePct y t) :
    LonePct y (substitutedFilename t fl data now) := by
  have stepH : ∀ s, LonePct y s → LonePct y (replaceTok 'H' (hexEncode (sha256 data)) s) :=
    fun s hs => replaceTok_lone _ _ y hy hyH s hs
  have steph : ∀ s, LonePct y s →
      LonePct y (replaceTok 'h' (hexEncode (sha256 (hashBodyInput data))) s) :=
    fun s hs => replaceTok_lone _ _ y hy hyh s hs
  have stepS : ∀ s, LonePct y s → LonePct y (replaceTok 's' (intDec now.unix) s) :=
    fun s hs => replaceTok_lone _ _ y hy hys s hs
  have stepN : ∀ s, LonePct y s → LonePct y (replaceTok 'N' (pad9 now.nanosecond) s) :=
    fun s hs => replaceTok_lone _ _ y hy hyN s hs
  by_cases h1 : fl.needTimestamp > 0 <;>
    by_cases h1a : fl.needTimestamp &&& 1 > 0 <;>
    by_cases h1b : fl.needTimestamp &&& 2 > 0 <;>
    by_cases h2 : fl.needDataHash = true <;>
    by_cases h3 : fl.needFullDataHash = true <;>
    simp only [substitutedFilename, h1, h1a, h1b, h2, h3, if_true, if_false] <;>
    repeat
      first
        | exact h
        | apply stepH _
        | apply steph _
        | apply stepS _
        | apply stepN _

theorem percentUnescape_escS (t : List Char) (h : EscSOcc t) :
    ∃ u2 v2, percentUnescape t = u2 ++ cs "%s" ++ v2 := by
  obtain ⟨u, m, v, rfl, hm2, hme, hu⟩ := h
  rw [percentUnescape_append_lastNot u _ hu]
  obtain ⟨k, rfl⟩ : ∃ k, m = 2 * k := ⟨m / 2, by omega⟩
  rw [percentUnescape_even_run, percentUnescape_cons_ne 's' (by decide) v]
  refine ⟨percentUnescape u ++ List.replicate (k - 1) '%', percentUnescape v, ?_⟩
  rw [show List.replicate k '%' = List.replicate (k - 1) '%' ++ ['%'] from by
    rw [← List.replicate_succ']
    congr 1
    omega]
  simp [show cs "%s" = ['%', 's'] from rfl, List.append_assoc]



/-- **C5** (counterexample): the template `a%%%s` contains the substring
`%%s`, yet its resolved path at unix time 5 is `a%5`, containing no literal
`%s` -- the run of three `%` is odd, so the regex reads it as an escaped pair
inside group 1 followed by a live `%s` token. -/
theorem escaped_literal_cex :
    (∃ u v, cs "a%%%s" = u ++ cs "%%s" ++ v) ∧
    resolvedFilename (cs "a%%%s") (scanTokens (cs "a%%%s")) [] ⟨5, 0⟩ = cs "a%5" ∧
    ¬∃ u v, resolvedFilename (cs "a%%%s") (scanTokens (cs "a%%%s")) [] ⟨5, 0⟩ =
      u ++ cs "%s" ++ v := by
  refine ⟨⟨cs "a%", [], by decide⟩, by decide, ?_⟩
  rintro ⟨u, v, heq⟩
  rw [(by decide : resolvedFilename (cs "a%%%s") (scanTokens (cs "a%%%s")) [] ⟨5, 0⟩ =
    cs "a%5")] at heq
  have hs : 's' ∈ cs "a%5" := by
    rw [heq]
    exact List.mem_append.mpr (Or.inl (List.mem_append.mpr (Or.inr (by decide))))
  exact absurd hs (by decide)

/-- **C5** (amended): (1) for every template containing an occurrence of
`%%s` whose maximal preceding run of `%` characters is even (so the `%%` is a
genuine escape pair), the resolved path contains a literal `%s`; (2) a `%`
immediately followed by a character that is neither a recognized token letter
nor another `%` is never consumed as a token marker: all four substitution
passes keep the `%` and its successor adjacent and intact. -/
theorem escaped_literal_amended :
    (∀ (t u v : List Char) (m : Nat) (data : List Nat) (now : GoTime),
      t = u ++ (List.replicate m '%' ++ 's' :: v) → 2 ≤ m → m % 2 = 0 →
      u.getLast? ≠ some '%' →
      ∃ u2 v2, resolvedFilename t (scanTokens t) data now = u2 ++ cs "%s" ++ v2) ∧
    (∀ (t u v : List Char) (y : Char) (data : List Nat) (now : GoTime),
      t = u ++ '%' :: y :: v → y ≠ '%' → y ≠ 'h' → y ≠ 'H' → y ≠ 's' → y ≠ 'N' →
      ∃ u2 v2, substitutedFilename t (scanTokens t) data now = u2 ++ '%' :: y :: v2) := by
  constructor
  · intro t u v m data now ht hm2 hme hu
    have hsub := substitutedFilename_escS t (scanTokens t) data now ⟨u, m, v, ht, hm2, hme, hu⟩
    have hne : substitutedFilename t (scanTokens t) data now ≠ [] := by
      obtain ⟨u2, m2, v2, heq, hm2x, _, _⟩ := hsub
      rw [heq]
      intro hc
      rcases List.append_eq_nil.mp hc with ⟨_, h2⟩
      rcases List.append_eq_nil.mp h2 with ⟨hrep, _⟩
      rw [List.replicate_eq_nil] at hrep
      omega
    simp only [resolvedFilename]
    rw [if_pos hne]
    exact percentUnescape_escS _ hsub
  · intro t u v y data now ht hy hyh hyH hys hyN
    exact substitutedFilename_lone y hy hyh hyH hys hyN t (scanTokens t) data now ⟨u, v, ht⟩

/-- Closed witness for the amended C5: `x%%sy` resolves to a path containing a
literal `%s`, and in `%q` the `%` survives the substitution passes. -/
theorem escaped_literal_amended_witness :
    (∃ u2 v2, resolvedFilename (cs "x%%sy") (scanTokens (cs "x%%sy")) [] ⟨5, 0⟩ =
      u2 ++ cs "%s" ++ v2) ∧
    (∃ u2 v2, substitutedFilename (cs "%q") (scanTokens (cs "%q")) [] ⟨5, 0⟩ =
      u2 ++ '%' :: 'q' :: v2) :=
  ⟨escaped_literal_amended.1 (cs "x%%sy") (cs "x") (cs "y") 2 [] ⟨5, 0⟩ (by decide)
      (by decide) (by decide) (by decide),
   escaped_literal_amended.2 (cs "%q") [] [] 'q' [] ⟨5, 0⟩ (by decide) (by decide)
      (by decide) (by decide) (by decide) (by decide)⟩

end SmtpReceiver
